import Mathlib

/-!
Shallow embedding of the `genmethods` tool (src/main.go): a code generator
that scans a Go package's declarations and, for each free function whose
first parameter has an allow-listed pointer type, synthesizes a method-style
wrapper that forwards to the original function.

Modelling choices:
* Go AST identifiers and type expressions are modelled by their string
  identity (`ast.Ident.String`, resp. the syntactic type expression node).
* `pkg.TypesInfo.Types[e].Type.String()` — the canonical resolved type of a
  syntactic type expression — is modelled by an association list
  `typesInfo : List (String × String)` from syntactic expression to canonical
  type string, mirroring the Go map.
* Go panics (the `default` branch of `parseDecl`, or an out-of-range index
  in `genMethod`) are modelled by `Option`: `none` is an aborted run.
* The `for` loops with early error return are `List.foldlM` in the `Option`
  monad.
-/

namespace GenMethods

/-- One comment line of a comment group (`ast.Comment`): its position
(`Slash`, `token.Pos`, 0 = no position) and its text. -/
structure Comment where
  slash : Nat
  text : String
deriving DecidableEq, Repr

/-- One parameter-list entry (`ast.Field`): zero or more names sharing one
syntactic type expression. -/
structure Field where
  names : List String
  typ : String
deriving DecidableEq, Repr

/-- A call expression (`ast.CallExpr`) as this program builds them: the
callee identifier and the argument identifiers. -/
structure CallExpr where
  fn : String
  args : List String
deriving DecidableEq, Repr

/-- The two statement forms the synthesizer emits: `return <exprs>`
(`ast.ReturnStmt`) and a bare expression statement (`ast.ExprStmt`). -/
inductive Stmt where
  | ret (results : List CallExpr)
  | exprStmt (x : CallExpr)
deriving DecidableEq, Repr

/-- A source function declaration (`ast.FuncDecl`): optional receiver list,
name, parameter list, optional result list (`Type.Results`, nil or present),
optional doc comment group (nil or present). -/
structure FuncDecl where
  doc : Option (List Comment)
  recv : Option (List Field)
  name : String
  params : List Field
  results : Option (List Field)
deriving DecidableEq, Repr

/-- A synthesized method declaration, as built by `genMethod`: the doc
comment group (always present, possibly empty), the single receiver field,
the method name, the remaining parameters, the result list (shared with the
original), and the body's statement list. -/
structure MethodDecl where
  doc : List Comment
  recv : Field
  name : String
  params : List Field
  results : Option (List Field)
  body : List Stmt
deriving DecidableEq, Repr

/-- A top-level declaration (`ast.Decl`): a general declaration
(`*ast.GenDecl`), a function declaration (`*ast.FuncDecl`), or any other
declaration kind (hits `parseDecl`'s `default` branch). -/
inductive Decl where
  | genDecl
  | funcDecl (d : FuncDecl)
  | otherDecl
deriving DecidableEq, Repr

/-- A parsed source file (`ast.File`): its top-level declarations in source
order. -/
structure File where
  decls : List Decl
deriving DecidableEq, Repr

/-- The loaded package (`packages.Package`): declared name, source files in
load order, and the type-resolution table mapping each syntactic type
expression to its canonical resolved type string. -/
structure Package where
  name : String
  files : List File
  typesInfo : List (String × String)
deriving DecidableEq, Repr

/-- Resolve a syntactic type expression to its canonical type string:
`gen.pkg.TypesInfo.Types[e].Type.String()`. A missing entry yields `""`
(never a member of the allow-list). -/
def Package.resolveType (pkg : Package) (e : String) : String :=
  match pkg.typesInfo.find? (fun p => p.1 == e) with
  | some p => p.2
  | none => ""

/-- The generator state (`Gen`): the package under analysis and the
generated methods accumulated so far. -/
structure Gen where
  pkg : Package
  methods : List MethodDecl
deriving DecidableEq, Repr

/-- The keys of the `validMethodTypes` map (all its values are `true`): the
allow-list of canonical receiver types. -/
def validMethodTypes : List String :=
  [ "*github.com/jupiterrider/purego-sdl3/sdl.Camera",
    "*github.com/jupiterrider/purego-sdl3/sdl.Cursor",
    "*github.com/jupiterrider/purego-sdl3/sdl.Renderer",
    "*github.com/jupiterrider/purego-sdl3/sdl.Surface",
    "*github.com/jupiterrider/purego-sdl3/sdl.Texture",
    "*github.com/jupiterrider/purego-sdl3/sdl.Window" ]

/-- Membership test of `isValidMethodType`: `validMethodTypes[typ.String()]`,
an exact string lookup defaulting to `false`. -/
def isValidMethodType (typ : String) : Bool :=
  validMethodTypes.contains typ

/-- The `renameMethod` map: original function identifier to preferred method
identifier, as an association list. -/
def renameMethod : List (String × String) :=
  [ ("AcquireCameraFrame", "AcquireFrame"),
    ("CloseCamera", "Close"),
    ("ReleaseCameraFrame", "ReleaseFrame"),
    ("DestroyCursor", "Destroy"),
    ("GetRendererName", "GetName"),
    ("DestroyRenderer", "Destroy"),
    ("RenderClear", "Clear"),
    ("RenderPresent", "Present"),
    ("SetRenderDrawColor", "SetDrawColor"),
    ("SetRenderVSync", "SetVSync"),
    ("BlitSurface", "Blit"),
    ("DestroySurface", "Destroy"),
    ("LockSurface", "Lock"),
    ("UnlockSurface", "Unlock"),
    ("DestroyTexture", "Destroy"),
    ("DestroyWindow", "Destroy"),
    ("GetWindowSize", "GetSize"),
    ("GetWindowSurface", "GetSurface"),
    ("HideWindow", "Hide"),
    ("SetWindowSize", "SetSize"),
    ("ShowWindow", "Show"),
    ("UpdateWindowSurface", "UpdateSurface") ]

/-- The map lookup `renameMethod[funcName]` with its `ok` flag: `some` iff
the key is present. -/
def renameMethodLookup (funcName : String) : Option String :=
  (renameMethod.find? (fun p => p.1 == funcName)).map (fun p => p.2)

/-- The synthesizer `genMethod`: builds the wrapper method for an accepted
declaration and appends it to `gen.methods`. The Go code indexes
`params[0]` and `firstParam.Names[0]` unconditionally; an out-of-range
index is a panic, modelled by `none`. -/
def genMethod (gen : Gen) (funcDecl : FuncDecl) : Option Gen :=
  match funcDecl.params with
  | [] => none
  | firstParam :: restParams =>
    match firstParam.names with
    | [] => none
    | firstParamName :: _ =>
      let firstParamType := firstParam.typ
      let funcName := funcDecl.name
      let methodName :=
        match renameMethodLookup funcName with
        | some newMethodName => newMethodName
        | none => funcName
      let doc : List Comment :=
        match funcDecl.doc with
        | some comments => comments.map (fun comment => { slash := 0, text := comment.text })
        | none => []
      let args : List String := (funcDecl.params.map Field.names).flatten
      let callExpr : CallExpr := { fn := funcDecl.name, args := args }
      let hasReturn : Bool :=
        match funcDecl.results with
        | some results => results.length > 0
        | none => false
      let stmt : Stmt :=
        if hasReturn then Stmt.ret [callExpr] else Stmt.exprStmt callExpr
      let methodDecl : MethodDecl :=
        { doc := doc
          recv := { names := [firstParamName], typ := firstParamType }
          name := methodName
          params := restParams
          results := funcDecl.results
          body := [stmt] }
      some { gen with methods := gen.methods ++ [methodDecl] }

/-- The classifier `parseFuncDecl`: skip declarations that already have a
receiver, declarations with no parameters, first-parameter slots whose name
count differs from one, and first parameters whose resolved type is not in
the allow-list; otherwise synthesize the wrapper. -/
def parseFuncDecl (gen : Gen) (decl : FuncDecl) : Option Gen :=
  if decl.recv.isSome then
    some gen
  else
    match decl.params with
    | [] => some gen
    | firstParam :: _ =>
      if firstParam.names.length ≠ 1 then
        some gen
      else
        let firstParamType := gen.pkg.resolveType firstParam.typ
        if ¬ isValidMethodType firstParamType then
          some gen
        else
          genMethod gen decl

/-- Dispatch on the declaration kind (`parseDecl`): general declarations
are passed over, function declarations go to the classifier, and any other
kind panics (`none`). -/
def parseDecl (gen : Gen) (decl : Decl) : Option Gen :=
  match decl with
  | Decl.genDecl => some gen
  | Decl.funcDecl d => parseFuncDecl gen d
  | Decl.otherDecl => none

/-- Process one file's declarations in order (`parseFile`), stopping at the
first failure. -/
def parseFile (gen : Gen) (file : File) : Option Gen :=
  file.decls.foldlM parseDecl gen

/-- Process every file of the package in load order (`parsePkg`). -/
def parsePkg (gen : Gen) : Option Gen :=
  gen.pkg.files.foldlM parseFile gen

/-- The fixed machine-generated marker line (`pre`), trailing newline
included. -/
def pre : String :=
  "// Code generated by \"genmethods\"; DO NOT EDIT.\n"

/-- Rendering of a doc comment group: each comment line followed by a
newline. -/
def renderDoc (doc : List Comment) : String :=
  String.join (doc.map (fun c => c.text ++ "\n"))

/-- Rendering of one field: its names, comma-separated, then its type. -/
def renderField (f : Field) : String :=
  String.intercalate ", " f.names ++ " " ++ f.typ

/-- Rendering of a field list, comma-separated. -/
def renderFields (fs : List Field) : String :=
  String.intercalate ", " (fs.map renderField)

/-- Rendering of a call expression. -/
def renderCall (c : CallExpr) : String :=
  c.fn ++ "(" ++ String.intercalate ", " c.args ++ ")"

/-- Rendering of a statement. -/
def renderStmt : Stmt → String
  | Stmt.ret results => "return " ++ String.intercalate ", " (results.map renderCall)
  | Stmt.exprStmt x => renderCall x

/-- Rendering of a result list. -/
def renderResults : Option (List Field) → String
  | some fs => if fs.length = 0 then "" else " (" ++ renderFields fs ++ ")"
  | none => ""

/-- Rendering of one synthesized method declaration, gofmt style. -/
def renderMethodDecl (m : MethodDecl) : String :=
  "\n" ++ renderDoc m.doc ++ "func (" ++ renderField m.recv ++ ") " ++ m.name
    ++ "(" ++ renderFields m.params ++ ")" ++ renderResults m.results ++ " \x7b\n"
    ++ String.join (m.body.map (fun s => "\t" ++ renderStmt s ++ "\n")) ++ "\x7d\n"

/-- Models `format.Node` applied to the assembled `ast.File` (package clause
followed by the declarations in slice order) with `format.Source` taken as
the identity on this already-canonical text. `go/format` is an external
library; only the structure the claims rely on — the package clause and the
slice order of the declarations — is meaningful here. -/
def formatNode (pkgName : String) (decls : List MethodDecl) : String :=
  "package " ++ pkgName ++ "\n" ++ String.join (decls.map renderMethodDecl)

/-- The text assembled by `printMethods`: `fmt.Fprintln(buf, pre)` writes
the marker line plus a blank line, then the formatted file follows. Writing
the text to the output path or to standard output is external I/O. -/
def printMethods (gen : Gen) : String :=
  pre ++ "\n" ++ formatNode gen.pkg.name gen.methods

/-- The whole run after loading (`genMethods`): parse the package, then
print the methods; `none` models an aborted run. -/
def genMethods (pkg : Package) : Option String :=
  let gen : Gen := { pkg := pkg, methods := [] }
  (parsePkg gen).map printMethods

/-! ## Spec-side definitions

The following definitions follow the specification's words (spec.md §3,
§4.2, §4.3) rather than the source; the theorems below compare the source
embedding against them. -/

/-- Follows the spec's words (§4.2 as amended): the classifier accepts a
function declaration iff it has no receiver, at least one parameter, a
first parameter slot declaring exactly one name, and a first parameter
whose resolved canonical type is a member of the allow-list. -/
def classifierAccepts (pkg : Package) (d : FuncDecl) : Bool :=
  match d.recv with
  | some _ => false
  | none =>
    match d.params with
    | [] => false
    | firstParam :: _ =>
      decide (firstParam.names.length = 1)
        && isValidMethodType (pkg.resolveType firstParam.typ)

/-- Follows the claim's literal words (C2, spec §4.2 rule 3): the same
rules, but the name-count rule only rejects a first parameter slot that
declares MORE than one name, so an unnamed first parameter passes on to the
type rule. -/
def classifierClaimAccepts (pkg : Package) (d : FuncDecl) : Bool :=
  match d.recv with
  | some _ => false
  | none =>
    match d.params with
    | [] => false
    | firstParam :: _ =>
      decide (firstParam.names.length ≤ 1)
        && isValidMethodType (pkg.resolveType firstParam.typ)

/-- Follows the spec's words (§3, Synthesized Method Declaration): name
possibly renamed, receiver from the first parameter's single name and type,
remaining parameters, the original result list, a single-statement
forwarding body, and the doc comment copied with zeroed positions. -/
def synthesizedMethod (d : FuncDecl) : MethodDecl :=
  let firstParam := (d.params.head?).getD { names := [], typ := "" }
  let recvName := (firstParam.names.head?).getD ""
  let call : CallExpr := { fn := d.name, args := (d.params.map Field.names).flatten }
  let stmt : Stmt :=
    if (d.results.getD []).length > 0 then Stmt.ret [call] else Stmt.exprStmt call
  { doc := (d.doc.getD []).map (fun c => { slash := 0, text := c.text })
    recv := { names := [recvName], typ := firstParam.typ }
    name := (renameMethodLookup d.name).getD d.name
    params := d.params.tail
    results := d.results
    body := [stmt] }

/-- Follows the spec's words (§4.4, §6): the function declarations of a
declaration list, in visitation order, that the classifier accepts. -/
def acceptedFuncDecls (pkg : Package) (ds : List Decl) : List FuncDecl :=
  ds.filterMap (fun d =>
    match d with
    | Decl.funcDecl f => if classifierAccepts pkg f then some f else none
    | _ => none)

/-- Follows the spec's words (§4.3, P5): the method as it would be
synthesized for a declaration without a renaming entry — identical to
`synthesizedMethod` except that the output identifier is the original
identifier unchanged. -/
def synthesizedMethodUnrenamed (d : FuncDecl) : MethodDecl :=
  let firstParam := (d.params.head?).getD { names := [], typ := "" }
  let recvName := (firstParam.names.head?).getD ""
  let call : CallExpr := { fn := d.name, args := (d.params.map Field.names).flatten }
  let stmt : Stmt :=
    if (d.results.getD []).length > 0 then Stmt.ret [call] else Stmt.exprStmt call
  { doc := (d.doc.getD []).map (fun c => { slash := 0, text := c.text })
    recv := { names := [recvName], typ := firstParam.typ }
    name := d.name
    params := d.params.tail
    results := d.results
    body := [stmt] }

/-- The synthesizer's result test (`hasReturn`): the declaration has a
result list and it is non-empty. -/
def FuncDecl.hasReturn (d : FuncDecl) : Bool :=
  match d.results with
  | some results => results.length > 0
  | none => false

/-- The forwarding call the synthesizer builds: the original identifier
applied to every original parameter's name, in original left-to-right
order. -/
def forwardCall (d : FuncDecl) : CallExpr :=
  { fn := d.name, args := (d.params.map Field.names).flatten }

/-- The forwarding call contained in a synthesized body, when the body is
the single statement the synthesizer emits. -/
def MethodDecl.bodyCall (m : MethodDecl) : Option CallExpr :=
  match m.body with
  | [Stmt.ret [c]] => some c
  | [Stmt.exprStmt c] => some c
  | _ => none

/-! ## Concrete example inputs

A small package in the shape of the spec's Scenario A, used by the witness
theorems: one file with a general declaration, the free function
`func DestroyWindow(win *Window)`, and a function with an unnamed first
parameter of allow-listed type. -/

/-- The declaration `func DestroyWindow(win *Window)`. -/
def dW : FuncDecl :=
  { doc := none
    recv := none
    name := "DestroyWindow"
    params := [{ names := ["win"], typ := "*Window" }]
    results := none }

/-- The declaration `func F(*Window)`: an unnamed first parameter whose
resolved type is in the allow-list. -/
def dUnnamedW : FuncDecl :=
  { doc := none
    recv := none
    name := "F"
    params := [{ names := [], typ := "*Window" }]
    results := none }

/-- The declaration `dW` with a doc comment carrying a nonzero source
position. -/
def dDoc : FuncDecl :=
  { doc := some [{ slash := 42, text := "// DestroyWindow destroys the window." }]
    recv := none
    name := "DestroyWindow"
    params := [{ names := ["win"], typ := "*Window" }]
    results := none }

/-- The example package. -/
def pkgW : Package :=
  { name := "sdl"
    files := [{ decls := [Decl.genDecl, Decl.funcDecl dW, Decl.funcDecl dUnnamedW] }]
    typesInfo := [("*Window", "*github.com/jupiterrider/purego-sdl3/sdl.Window")] }

/-- The initial generator state over the example package. -/
def genW : Gen := { pkg := pkgW, methods := [] }

/-- The method `func (win *Window) Destroy() { DestroyWindow(win) }` that
the run synthesizes for `dW`. -/
def mW : MethodDecl :=
  { doc := []
    recv := { names := ["win"], typ := "*Window" }
    name := "Destroy"
    params := []
    results := none
    body := [Stmt.exprStmt { fn := "DestroyWindow", args := ["win"] }] }

/-- The generator state after the example run. -/
def genW' : Gen := { pkg := pkgW, methods := [mW] }

/-- The generator state after synthesizing the wrapper of `dDoc`. -/
def genDocRes : Gen := (genMethod genW dDoc).getD genW

/-- A file containing a declaration of an unrecognized kind. -/
def fileBad : File := { decls := [Decl.otherDecl] }

/-! ## Characterization lemmas -/

/-- On a declaration whose first parameter exists and has at least one
name, `genMethod` succeeds and appends exactly the spec-side synthesized
method. -/
theorem genMethod_eq_synthesizedMethod (gen : Gen) (d : FuncDecl)
    (fp : Field) (rest : List Field) (n : String) (ns : List String)
    (hp : d.params = fp :: rest) (hn : fp.names = n :: ns) :
    genMethod gen d = some { gen with methods := gen.methods ++ [synthesizedMethod d] } := by
  cases d with
  | mk doc recv name params results =>
    simp only [FuncDecl.params] at hp
    subst hp
    simp only [genMethod, hn, synthesizedMethod]
    cases doc <;> cases results <;> cases hrl : renameMethodLookup name <;>
      simp [FuncDecl.doc, FuncDecl.results, FuncDecl.name, hn, hrl]

/-- The classifier `parseFuncDecl` never aborts: it returns the input state
unchanged on a rejected declaration and appends the synthesized method on
an accepted one, exactly as the (amended) spec rules decide. -/
theorem parseFuncDecl_eq_classifier (gen : Gen) (d : FuncDecl) :
    parseFuncDecl gen d =
      some (if classifierAccepts gen.pkg d then
              { gen with methods := gen.methods ++ [synthesizedMethod d] }
            else gen) := by
  unfold parseFuncDecl classifierAccepts
  cases hrecv : d.recv with
  | some r => simp
  | none =>
    simp only [Option.isSome_none, Bool.false_eq_true, if_false]
    cases hp : d.params with
    | nil => simp
    | cons fp rest =>
      by_cases hlen : fp.names.length = 1
      · cases hn : fp.names with
        | nil => simp [hn] at hlen
        | cons n ns =>
          rw [genMethod_eq_synthesizedMethod gen d fp rest n ns hp hn]
          by_cases hty : isValidMethodType (gen.pkg.resolveType fp.typ) = true
          · simp [hlen, hty]
          · simp [hlen, hty]
      · simp [hlen]

/-- Folding `parseDecl` over a declaration list either aborts or preserves
the package and appends exactly the synthesized methods of the accepted
function declarations, in visitation order. -/
theorem foldlM_parseDecl_eq (ds : List Decl) (gen gen' : Gen)
    (h : ds.foldlM parseDecl gen = some gen') :
    gen'.pkg = gen.pkg ∧
    gen'.methods = gen.methods ++ (acceptedFuncDecls gen.pkg ds).map synthesizedMethod := by
  induction ds generalizing gen with
  | nil =>
    simp only [List.foldlM_nil, Option.pure_def, Option.some.injEq] at h
    subst h
    simp [acceptedFuncDecls]
  | cons d ds ih =>
    rw [List.foldlM_cons] at h
    cases d with
    | genDecl =>
      simp only [parseDecl, Option.bind_eq_bind, Option.some_bind] at h
      obtain ⟨hpkg, hm⟩ := ih gen h
      exact ⟨hpkg, by simp [acceptedFuncDecls, List.filterMap_cons] at hm ⊢; exact hm⟩
    | otherDecl =>
      simp [parseDecl] at h
    | funcDecl f =>
      rw [parseDecl, parseFuncDecl_eq_classifier] at h
      simp only [Option.bind_eq_bind, Option.some_bind] at h
      by_cases hacc : classifierAccepts gen.pkg f = true
      · rw [if_pos hacc] at h
        obtain ⟨hpkg, hm⟩ := ih _ h
        refine ⟨hpkg, ?_⟩
        simp only [Gen.methods, Gen.pkg] at hpkg hm ⊢
        rw [hm]
        simp [acceptedFuncDecls, List.filterMap_cons, hacc]
      · rw [if_neg hacc] at h
        obtain ⟨hpkg, hm⟩ := ih gen h
        refine ⟨hpkg, ?_⟩
        rw [hm]
        simp [acceptedFuncDecls, List.filterMap_cons, hacc]

/-- Folding `parseFile` over a file list either aborts or preserves the
package and appends exactly the synthesized methods of the accepted
function declarations of all files, in visitation order. -/
theorem foldlM_parseFile_eq (fs : List File) (gen gen' : Gen)
    (h : fs.foldlM parseFile gen = some gen') :
    gen'.pkg = gen.pkg ∧
    gen'.methods = gen.methods ++
      (acceptedFuncDecls gen.pkg (fs.map File.decls).flatten).map synthesizedMethod := by
  induction fs generalizing gen with
  | nil =>
    simp only [List.foldlM_nil, Option.pure_def, Option.some.injEq] at h
    subst h
    simp [acceptedFuncDecls]
  | cons f fs ih =>
    rw [List.foldlM_cons] at h
    cases hf : parseFile gen f with
    | none => rw [hf] at h; simp at h
    | some g1 =>
      rw [hf] at h
      simp only [Option.bind_eq_bind, Option.some_bind] at h
      obtain ⟨hpkg1, hm1⟩ := foldlM_parseDecl_eq f.decls gen g1 hf
      obtain ⟨hpkg2, hm2⟩ := ih g1 h
      refine ⟨hpkg2.trans hpkg1, ?_⟩
      rw [hm2, hpkg1, hm1]
      simp [acceptedFuncDecls, List.filterMap_append]

/-- The whole parse (`parsePkg`) either aborts or appends exactly the
synthesized methods of the accepted function declarations of the package's
files, in visitation order, leaving the package untouched. -/
theorem parsePkg_eq (gen gen' : Gen) (h : parsePkg gen = some gen') :
    gen'.pkg = gen.pkg ∧
    gen'.methods = gen.methods ++
      (acceptedFuncDecls gen.pkg (gen.pkg.files.map File.decls).flatten).map
        synthesizedMethod :=
  foldlM_parseFile_eq gen.pkg.files gen gen' h

/-- Membership in the accepted list means the classifier accepts. -/
theorem mem_acceptedFuncDecls (pkg : Package) (ds : List Decl) (f : FuncDecl)
    (h : f ∈ acceptedFuncDecls pkg ds) : classifierAccepts pkg f = true := by
  simp only [acceptedFuncDecls, List.mem_filterMap] at h
  obtain ⟨d, _, hd⟩ := h
  cases d with
  | genDecl => simp at hd
  | otherDecl => simp at hd
  | funcDecl g =>
    by_cases hacc : classifierAccepts pkg g = true
    · simp [hacc] at hd
      subst hd
      exact hacc
    · simp [hacc] at hd

/-- An accepted declaration's synthesized receiver type resolves to an
allow-list member. -/
theorem classifierAccepts_recv_valid (pkg : Package) (d : FuncDecl)
    (h : classifierAccepts pkg d = true) :
    isValidMethodType (pkg.resolveType (synthesizedMethod d).recv.typ) = true := by
  unfold classifierAccepts at h
  cases hrecv : d.recv with
  | some r => rw [hrecv] at h; simp at h
  | none =>
    rw [hrecv] at h
    cases hp : d.params with
    | nil => rw [hp] at h; simp at h
    | cons fp rest =>
      rw [hp] at h
      simp only [Bool.and_eq_true, decide_eq_true_eq] at h
      simp [synthesizedMethod, hp, h.2]

/-- A successful `genMethod` returns the input state with exactly the
spec-side synthesized method appended. -/
theorem genMethod_some (gen gen' : Gen) (d : FuncDecl)
    (h : genMethod gen d = some gen') :
    gen' = { gen with methods := gen.methods ++ [synthesizedMethod d] } := by
  cases hp : d.params with
  | nil => unfold genMethod at h; rw [hp] at h; simp at h
  | cons fp rest =>
    cases hn : fp.names with
    | nil => unfold genMethod at h; rw [hp] at h; simp [hn] at h
    | cons n ns =>
      rw [genMethod_eq_synthesizedMethod gen d fp rest n ns hp hn] at h
      exact (Option.some.inj h).symm

/-- The method appended by a successful `genMethod` is the spec-side
synthesized method. -/
theorem genMethod_method_eq (gen gen' : Gen) (d : FuncDecl) (m : MethodDecl)
    (h : genMethod gen d = some gen') (hm : gen'.methods = gen.methods ++ [m]) :
    m = synthesizedMethod d := by
  have hg := genMethod_some gen gen' d h
  subst hg
  simp only [Gen.methods] at hm
  have := List.append_cancel_left hm
  simp only [List.cons.injEq, and_true] at this
  exact this.symm

/-- A declaration list containing an unrecognized declaration kind always
aborts the fold. -/
theorem foldlM_parseDecl_otherDecl (ds : List Decl) (gen : Gen)
    (h : Decl.otherDecl ∈ ds) : ds.foldlM parseDecl gen = none := by
  induction ds generalizing gen with
  | nil => simp at h
  | cons d ds ih =>
    rw [List.foldlM_cons]
    rcases List.mem_cons.mp h with hd | hds
    · subst hd
      simp [parseDecl]
    · cases hpd : parseDecl gen d with
      | none => simp
      | some g1 => simp only [Option.bind_eq_bind, Option.some_bind]; exact ih g1 hds

/-! ## Claims -/

/-- C1: for every synthesized method declaration added to the output, the
canonical string identity of its receiver's type (the resolved type of the
receiver's syntactic type expression) is a member of the fixed eligibility
allow-list `validMethodTypes`; no declaration with a receiver type outside
that set is ever synthesized. -/
theorem c1_receiver_type_allowlisted (gen gen' : Gen)
    (h : parsePkg gen = some gen') (h0 : gen.methods = []) :
    ∀ m ∈ gen'.methods, isValidMethodType (gen'.pkg.resolveType m.recv.typ) = true := by
  obtain ⟨hpkg, hm⟩ := parsePkg_eq gen gen' h
  intro m hmem
  rw [hm, h0, List.nil_append, List.mem_map] at hmem
  obtain ⟨f, hf, rfl⟩ := hmem
  rw [hpkg]
  exact classifierAccepts_recv_valid gen.pkg f
    (mem_acceptedFuncDecls gen.pkg _ f hf)

/-- C1 witness: in the example run the synthesized method's receiver type
resolves to an allow-list member. -/
theorem c1_witness :
    mW ∈ genW'.methods ∧
    isValidMethodType (genW'.pkg.resolveType mW.recv.typ) = true :=
  ⟨by decide,
   c1_receiver_type_allowlisted genW genW' (by decide) rfl mW (by decide)⟩

/-- C2 counterexample: the declaration `func F(*Window)` (unnamed first
parameter with an allow-listed resolved type) passes every rule the claim
lists — no receiver, one parameter, not more than one name in the first
slot, allow-listed type — so the claim's rules accept it and synthesize a
wrapper; the code, whose name-count rule demands exactly one name, rejects
it and synthesizes nothing. -/
theorem c2_counterexample :
    classifierClaimAccepts pkgW dUnnamedW = true ∧
    parseFuncDecl genW dUnnamedW = some genW ∧
    genW.methods = [] := by
  decide

/-- C2 (amended): the classifier applies the rules in order, short-circuiting
on the first that disqualifies — reject a declaration that already has a
receiver; reject one with zero parameters; reject one whose first parameter
slot declares a number of names different from one (zero names, i.e. an
unnamed parameter, or more than one); reject one whose first parameter's
resolved canonical type is not an exact member of the allow-list; otherwise
accept and synthesize a wrapper. No other rule rejects a declaration. -/
theorem c2_classifier_rules (gen : Gen) (d : FuncDecl) :
    parseFuncDecl gen d =
      some (if classifierAccepts gen.pkg d then
              { gen with methods := gen.methods ++ [synthesizedMethod d] }
            else gen) :=
  parseFuncDecl_eq_classifier gen d

/-- C3: the forwarding call of every synthesized method names the original
(unrenamed) function and passes exactly the names of all of the original
declaration's parameters, in original left-to-right order, so the argument
count equals the number of parameter names of the original declaration. -/
theorem c3_forwarding_call (gen gen' : Gen) (d : FuncDecl) (m : MethodDecl)
    (h : genMethod gen d = some gen') (hm : gen'.methods = gen.methods ++ [m]) :
    m.bodyCall = some (forwardCall d) ∧
    (forwardCall d).fn = d.name ∧
    (forwardCall d).args = (d.params.map Field.names).flatten ∧
    (forwardCall d).args.length = (d.params.map (fun f => f.names.length)).sum := by
  have hmeq := genMethod_method_eq gen gen' d m h hm
  subst hmeq
  refine ⟨?_, rfl, rfl, ?_⟩
  · simp only [synthesizedMethod, MethodDecl.bodyCall, forwardCall]
    by_cases hr : (d.results.getD []).length > 0
    · simp [hr]
    · simp [hr]
  · simp [forwardCall, List.length_flatten, List.map_map, Function.comp_def]

/-- C3 witness: the wrapper of `func DestroyWindow(win *Window)` forwards
`DestroyWindow(win)`. -/
theorem c3_witness :
    mW.bodyCall = some (forwardCall dW) ∧
    (forwardCall dW).fn = dW.name ∧
    (forwardCall dW).args = (dW.params.map Field.names).flatten ∧
    (forwardCall dW).args.length = (dW.params.map (fun f => f.names.length)).sum :=
  c3_forwarding_call genW genW' dW mW (by decide) (by decide)

/-- C4: every synthesized method's body is a single statement — a return
wrapping the forwarding call when the original result list is non-empty, a
bare expression statement containing the call otherwise. -/
theorem c4_body_single_statement (gen gen' : Gen) (d : FuncDecl) (m : MethodDecl)
    (h : genMethod gen d = some gen') (hm : gen'.methods = gen.methods ++ [m]) :
    m.body = [if d.hasReturn then Stmt.ret [forwardCall d]
              else Stmt.exprStmt (forwardCall d)] ∧
    (d.hasReturn = true ↔ d.results.getD [] ≠ []) := by
  have hmeq := genMethod_method_eq gen gen' d m h hm
  subst hmeq
  constructor
  · simp only [synthesizedMethod, FuncDecl.hasReturn, forwardCall]
    cases d.results with
    | none => simp
    | some rs => cases rs <;> simp
  · simp only [FuncDecl.hasReturn]
    cases d.results with
    | none => simp
    | some rs => cases rs <;> simp

/-- C4 witness: `DestroyWindow` has no results, so the wrapper body is the
bare call statement. -/
theorem c4_witness :
    mW.body = [if dW.hasReturn then Stmt.ret [forwardCall dW]
               else Stmt.exprStmt (forwardCall dW)] ∧
    (dW.hasReturn = true ↔ dW.results.getD [] ≠ []) :=
  c4_body_single_statement genW genW' dW mW (by decide) (by decide)

/-- C5: for an accepted declaration whose identifier is a key of the
renaming table, the synthesized method carries the mapped identifier, the
forwarding call's callee stays the original identifier, and replacing the
method's name by the original identifier yields exactly the method that
would be synthesized without the renaming. -/
theorem c5_renaming_cosmetic (gen gen' : Gen) (d : FuncDecl) (m : MethodDecl)
    (newName : String)
    (hr : renameMethodLookup d.name = some newName)
    (h : genMethod gen d = some gen') (hm : gen'.methods = gen.methods ++ [m]) :
    m.name = newName ∧
    { m with name := d.name } = synthesizedMethodUnrenamed d ∧
    m.bodyCall.map CallExpr.fn = some d.name := by
  have hmeq := genMethod_method_eq gen gen' d m h hm
  subst hmeq
  refine ⟨?_, ?_, ?_⟩
  · simp [synthesizedMethod, hr]
  · simp [synthesizedMethod, synthesizedMethodUnrenamed]
  · simp only [synthesizedMethod, MethodDecl.bodyCall]
    by_cases hret : (d.results.getD []).length > 0
    · simp [hret]
    · simp [hret]

/-- C5 witness: `DestroyWindow` is renamed to `Destroy`; the rest of the
method equals the unrenamed synthesis and the callee stays
`DestroyWindow`. -/
theorem c5_witness :
    mW.name = "Destroy" ∧
    { mW with name := dW.name } = synthesizedMethodUnrenamed dW ∧
    mW.bodyCall.map CallExpr.fn = some dW.name :=
  c5_renaming_cosmetic genW genW' dW mW "Destroy" (by decide) (by decide) (by decide)

/-- C6: the emitted text begins with the fixed marker comment, a blank
line, and a package declaration carrying the loaded package's name, and
then contains exactly the synthesized methods of the accepted declarations
in visitation order (files in load order, declarations in source order, no
sorting); with zero qualifying declarations only the marker and the package
declaration remain. -/
theorem c6_output_format (gen gen' : Gen)
    (h : parsePkg gen = some gen') (h0 : gen.methods = []) :
    printMethods gen' =
      pre ++ "\n" ++ "package " ++ gen'.pkg.name ++ "\n" ++
        String.join
          (((acceptedFuncDecls gen.pkg (gen.pkg.files.map File.decls).flatten).map
              synthesizedMethod).map renderMethodDecl) ∧
    (acceptedFuncDecls gen.pkg (gen.pkg.files.map File.decls).flatten = [] →
      printMethods gen' = pre ++ "\n" ++ "package " ++ gen'.pkg.name ++ "\n") := by
  obtain ⟨hpkg, hm⟩ := parsePkg_eq gen gen' h
  rw [h0, List.nil_append] at hm
  constructor
  · rw [printMethods, formatNode, hm]
    simp only [String.append_assoc]
  · intro hempty
    rw [printMethods, formatNode, hm, hempty]
    simp only [List.map_nil, String.append_assoc]
    rw [show String.join ([] : List String) = "" from rfl]
    rw [show ("\n" : String) ++ "" = "\n" from rfl]

/-- C6 witness: the example run emits the marker, the package clause for
`sdl`, and the one synthesized method. -/
theorem c6_witness :
    printMethods genW' =
      pre ++ "\n" ++ "package " ++ genW'.pkg.name ++ "\n" ++
        String.join
          (((acceptedFuncDecls genW.pkg (genW.pkg.files.map File.decls).flatten).map
              synthesizedMethod).map renderMethodDecl) ∧
    (acceptedFuncDecls genW.pkg (genW.pkg.files.map File.decls).flatten = [] →
      printMethods genW' = pre ++ "\n" ++ "package " ++ genW'.pkg.name ++ "\n") :=
  c6_output_format genW genW' (by decide) rfl

/-- C7: a top-level declaration of an unrecognized kind aborts the entire
run, while a general declaration is passed over without aborting and
without changing the state; a file containing an unrecognized declaration
makes the whole file parse abort. -/
theorem c7_unrecognized_decl_aborts (gen : Gen) (file : File)
    (hmem : Decl.otherDecl ∈ file.decls) :
    parseDecl gen Decl.genDecl = some gen ∧
    parseDecl gen Decl.otherDecl = none ∧
    parseFile gen file = none :=
  ⟨rfl, rfl, foldlM_parseDecl_otherDecl file.decls gen hmem⟩

/-- C7 witness: the file holding one unrecognized declaration aborts. -/
theorem c7_witness :
    parseDecl genW Decl.genDecl = some genW ∧
    parseDecl genW Decl.otherDecl = none ∧
    parseFile genW fileBad = none :=
  c7_unrecognized_decl_aborts genW fileBad (by decide)

/-- C9: for every accepted declaration carrying a doc comment, the
synthesized method's doc comment has the same comment lines text-for-text,
and every copied comment's position is zeroed. -/
theorem c9_doc_comment_copied (gen gen' : Gen) (d : FuncDecl) (m : MethodDecl)
    (cs : List Comment)
    (h : genMethod gen d = some gen') (hm : gen'.methods = gen.methods ++ [m])
    (hdoc : d.doc = some cs) :
    m.doc.map Comment.text = cs.map Comment.text ∧
    (m.doc.all (fun c => c.slash == 0)) = true := by
  have hmeq := genMethod_method_eq gen gen' d m h hm
  subst hmeq
  constructor
  · simp [synthesizedMethod, hdoc, Function.comp]
  · simp [synthesizedMethod, hdoc, List.all_eq_true]

/-- C9 witness: the doc comment of `dDoc` is copied text-for-text with its
position zeroed. -/
theorem c9_witness :
    genDocRes.methods.map MethodDecl.doc =
      [[{ slash := 0, text := "// DestroyWindow destroys the window." }]] ∧
    ((genDocRes.methods.headD mW).doc.map Comment.text =
      [{ slash := 42, text := "// DestroyWindow destroys the window." }].map Comment.text ∧
     ((genDocRes.methods.headD mW).doc.all (fun c => c.slash == 0)) = true) :=
  ⟨by decide,
   c9_doc_comment_copied genW genDocRes dDoc (genDocRes.methods.headD mW)
     [{ slash := 42, text := "// DestroyWindow destroys the window." }]
     (by decide) (by decide) (by decide)⟩

/-- C10: a function declaration whose first parameter slot declares zero
names is rejected by the classifier (the name-count check demands exactly
one name), and the classifier never aborts — the synthesizer's reads of the
first parameter and its single name never fail on any input the classifier
forwards. -/
theorem c10_unnamed_first_param_rejected (gen : Gen) (d d' : FuncDecl)
    (fp : Field) (rest : List Field)
    (hp : d.params = fp :: rest) (hn : fp.names = []) :
    parseFuncDecl gen d = some gen ∧
    (parseFuncDecl gen d').isSome = true := by
  constructor
  · rw [parseFuncDecl_eq_classifier]
    have hacc : classifierAccepts gen.pkg d = false := by
      unfold classifierAccepts
      cases hrecv : d.recv with
      | some r => rfl
      | none => rw [hp]; simp [hn]
    rw [hacc]
    simp
  · rw [parseFuncDecl_eq_classifier]
    rfl

/-- C10 witness: `func F(*Window)` is rejected even though its type is
allow-listed, and the classifier run on `DestroyWindow` does not abort. -/
theorem c10_witness :
    parseFuncDecl genW dUnnamedW = some genW ∧
    (parseFuncDecl genW dW).isSome = true :=
  c10_unnamed_first_param_rejected genW dUnnamedW dW
    { names := [], typ := "*Window" } [] rfl rfl

end GenMethods
